import Mathlib

/-!
Verification of the compiled rule-matching core of `nlprule`
(`src/nlprule/src/compile/impls.rs`), shallowly embedded in Lean 4.

Rust data is embedded as plain Lean data: `Vec` becomes `List`, `Option`
becomes `Option`, `Result` becomes `Except`, `HashMap`/`HashSet` become
association lists / duplicate-free lists, and a Rust panic is modelled by
an outer `Option` (`none` = panic).  Collaborator functions that live
outside the embedded file (`Matcher::is_match`,
`Rule::from_rule_structure`, `DisambiguationRule::from_rule_structure`,
the structural-XML readers) are either modelled from the specification or
taken as parameters, as noted on each definition.
-/

namespace Nlprule

/-! ## Atom algebra (`mod composition` in `impls.rs`) -/

/-- The boolean predicate tree over tokens.  `TrueAtom`, `FalseAtom`,
`AndAtom`, `OrAtom`, `NotAtom`, `OffsetAtom` mirror the enum-dispatched
variants in the source; `LeafAtom` stands for the collaborator-defined
leaf kinds (text / POS / chunk atoms), which the smart constructors treat
opaquely. -/
inductive Atom : Type where
  | TrueAtom : Atom
  | FalseAtom : Atom
  | AndAtom : List Atom → Atom
  | OrAtom : List Atom → Atom
  | NotAtom : Atom → Atom
  | OffsetAtom : Atom → Int → Atom
  | LeafAtom : Nat → Atom

/-- Discriminator used by `AndAtom::and`'s
`matches!(x, Atom::TrueAtom { .. })` filter. -/
def Atom.isTrueAtom : Atom → Bool
  | .TrueAtom => true
  | _ => false

/-- Discriminator used by `OrAtom::or`'s
`matches!(x, Atom::FalseAtom { .. })` filter. -/
def Atom.isFalseAtom : Atom → Bool
  | .FalseAtom => true
  | _ => false

/-- `AndAtom::and` (impls.rs:324-337): drop `TrueAtom` children; empty
result gives `TrueAtom`, a single survivor is returned unwrapped,
otherwise the survivors are wrapped in `AndAtom`. -/
def AndAtom.and (atoms : List Atom) : Atom :=
  match atoms.filter (fun x => !x.isTrueAtom) with
  | [] => .TrueAtom
  | [a] => a
  | l => .AndAtom l

/-- `OrAtom::or` (impls.rs:341-354): drop `FalseAtom` children; empty
result gives `FalseAtom`, a single survivor is returned unwrapped,
otherwise the survivors are wrapped in `OrAtom`. -/
def OrAtom.or (atoms : List Atom) : Atom :=
  match atoms.filter (fun x => !x.isFalseAtom) with
  | [] => .FalseAtom
  | [a] => a
  | l => .OrAtom l

/-- `NotAtom::not` (impls.rs:358-364): negation simplifies on the
constants and otherwise wraps its argument once. -/
def NotAtom.not (atom : Atom) : Atom :=
  match atom with
  | .TrueAtom => .FalseAtom
  | .FalseAtom => .TrueAtom
  | x => .NotAtom x

/-- `OffsetAtom::new` (impls.rs:368-373). -/
def OffsetAtom.new (atom : Atom) (offset : Int) : Atom :=
  .OffsetAtom atom offset

/-! ## Quantifier, Part and Composition -/

/-- `Quantifier { min, max }` (composition module). -/
structure Quantifier where
  min : Nat
  max : Nat
deriving DecidableEq

/-- `Quantifier::new` (impls.rs:317-320): the `assert!(max >= min)` is
modelled by returning `none` (panic) when the bounds are inverted. -/
def Quantifier.new (min max : Nat) : Option Quantifier :=
  if min ≤ max then some ⟨min, max⟩ else none

/-- `Part { atom, quantifier, visible }`. -/
structure Part where
  atom : Atom
  quantifier : Quantifier
  visible : Bool

/-- `Composition { parts, group_ids_to_idx, can_stop_mask }`; the
`DefaultHashMap<usize, usize>` is modelled as an association list (its
keys are inserted exactly once). -/
structure Composition where
  parts : List Part
  group_ids_to_idx : List (Nat × Nat)
  can_stop_mask : List Bool

/-- The loop of `Composition::new` (impls.rs:382-387): `curId` is the
running `current_id`, `i` the index of the head of the remaining list;
each visible part inserts `(current_id, i + 1)`. -/
def groupIdsToIdxAux : Nat → Nat → List Part → List (Nat × Nat)
  | _, _, [] => []
  | curId, i, p :: rest =>
    if p.visible then (curId, i + 1) :: groupIdsToIdxAux (curId + 1) (i + 1) rest
    else groupIdsToIdxAux curId (i + 1) rest

/-- `group_ids_to_idx` of `Composition::new` (impls.rs:378-387): the map
starts with `0 ↦ 0` and then walks the parts from index 0 with
`current_id = 1`. -/
def Composition.groupIdsToIdx (parts : List Part) : List (Nat × Nat) :=
  (0, 0) :: groupIdsToIdxAux 1 0 parts

/-- `can_stop_mask` of `Composition::new` (impls.rs:389-391):
`(0..parts.len()).map(|i| parts[i..].iter().all(|x| x.quantifier.min == 0))`. -/
def Composition.canStopMask (parts : List Part) : List Bool :=
  (List.range parts.length).map (fun i => (parts.drop i).all (fun x => x.quantifier.min == 0))

/-- `Composition::new` (impls.rs:377-398). -/
def Composition.new (parts : List Part) : Composition :=
  { parts := parts
    group_ids_to_idx := Composition.groupIdsToIdx parts
    can_stop_mask := Composition.canStopMask parts }

/-- Spec-side helper (used only to state the amended C2): the indices of
the `visible` parts, in order. -/
def visibleIndices (parts : List Part) : List Nat :=
  (parts.enum.filter (fun q => q.2.visible)).map Prod.fst

/-- A visible example part (atom and quantifier irrelevant). -/
def visiblePart : Part := ⟨.TrueAtom, ⟨1, 1⟩, true⟩

/-- An invisible example part (atom and quantifier irrelevant). -/
def invisiblePart : Part := ⟨.TrueAtom, ⟨1, 1⟩, false⟩

/-- An example part with the given `quantifier.min` (visible, `max = min`). -/
def partWithMin (m : Nat) : Part := ⟨.TrueAtom, ⟨m, m⟩, true⟩

/-! ## Matcher, TextMatcher, PosMatcher, BuildInfo -/

/-- `SerializeRegex`: a compiled regex, modelled as its pattern string
together with its match semantics.  The source hashes a regex (for the
`BuildInfo` cache key) by its content, which the `pattern` field models. -/
structure SerializeRegex where
  pattern : String
  accepts : String → Bool

/-- `MatchGraph`: runtime record mapping a capture-group id to the text
it matched. -/
abbrev MatchGraph := List (Nat × String)

/-- `MatchGraph::default()`: the empty record. -/
def MatchGraph.default : MatchGraph := []

/-- `Matcher` (composition module): `either::Either<either::Either<String,
usize>, SerializeRegex>` plus the three flags. -/
structure Matcher where
  matcher : Sum (Sum String Nat) SerializeRegex
  negate : Bool
  case_sensitive : Bool
  empty_always_false : Bool

/-- `Matcher::new_regex` (impls.rs:288-295): `case_sensitive` is fixed to
`true` (case handling is delegated to the pattern). -/
def Matcher.new_regex (regex : SerializeRegex) (negate empty_always_false : Bool) : Matcher :=
  ⟨.inr regex, negate, true, empty_always_false⟩

/-- `Matcher::new_string` (impls.rs:297-309). -/
def Matcher.new_string (string_or_idx : Sum String Nat)
    (negate case_sensitive empty_always_false : Bool) : Matcher :=
  ⟨.inl string_or_idx, negate, case_sensitive, empty_always_false⟩

/-- `Matcher::needs_graph` (impls.rs:311-313): true exactly for the
index-backed mode. -/
def Matcher.needs_graph (m : Matcher) : Bool :=
  match m.matcher with
  | .inl (.inr _) => true
  | _ => false

/-- Modelled from the spec: `Matcher::is_match` lives in the composition
engine module, which is not part of the embedded file; spec section 4.1
gives its evaluation policy: if `empty_always_false` and the probe is
empty the result is false unconditionally; otherwise the base match is
string equality (honouring `case_sensitive`), equality against the text
of an earlier capture group resolved through the match graph (index
mode), or the regex's own match semantics, and `negate` is applied
last. -/
def Matcher.is_match (m : Matcher) (probe : String) (graph : MatchGraph) : Bool :=
  if m.empty_always_false && probe.isEmpty then false
  else
    let base :=
      match m.matcher with
      | .inl (.inl s) =>
        if m.case_sensitive then probe == s else probe.toLower == s.toLower
      | .inl (.inr idx) =>
        match graph.lookup idx with
        | some s => if m.case_sensitive then probe == s else probe.toLower == s.toLower
        | none => false
      | .inr regex => regex.accepts probe
    Bool.xor base m.negate

/-- The tagger collaborator: a word → id vocabulary store and a
tag → id store, both read-only during a build. -/
structure Tagger where
  word_store : List (String × Nat)
  tag_store : List (String × Nat)

/-- The regex-cache key: the source hashes the regex together with
`negate` and `empty_always_false` (impls.rs:26-30). -/
abbrev RegexCacheKey := String × Bool × Bool

/-- `BuildInfo`: the tagger plus the build-scoped regex-result cache
(`DefaultHashMap<u64, Option<DefaultHashSet<u32>>>`, modelled as an
association list keyed by the hashed signature). -/
structure BuildInfo where
  tagger : Tagger
  regex_cache : List (RegexCacheKey × Option (List Nat))

/-- `TextMatcher { matcher, set }`: the optional precomputed id set is a
`DefaultHashSet<u32>`, modelled as a duplicate-free list. -/
structure TextMatcher where
  matcher : Matcher
  set : Option (List Nat)

/-- Collecting into a `HashSet`: keep the first occurrence of each id. -/
def hashSetInsert (s : List Nat) (id : Nat) : List Nat :=
  if s.contains id then s else s ++ [id]

/-- The id set obtained by collecting a list of ids into a `HashSet`. -/
def hashSetOfList (l : List Nat) : List Nat := l.foldl hashSetInsert []

/-- The vocabulary scan of `TextMatcher::new` (impls.rs:35-46): evaluate
the matcher on every stored word (with a default match graph) and collect
the ids of the matching words into a set. -/
def TextMatcher.scanSet (matcher : Matcher) (info : BuildInfo) : List Nat :=
  hashSetOfList (info.tagger.word_store.filterMap
    (fun wi => if matcher.is_match wi.1 MatchGraph.default then some wi.2 else none))

/-- `TextMatcher::new` (impls.rs:20-60).  Mutation of `info` is modelled
by returning the updated `BuildInfo`.  A graph-dependent matcher gets no
set; a regex-backed matcher consults the cache, and on a miss scans the
vocabulary, discards the set if it has more than 100 members, and inserts
the (possibly-`none`) result into the cache before returning; any other
matcher gets no set. -/
def TextMatcher.new (matcher : Matcher) (info : BuildInfo) : TextMatcher × BuildInfo :=
  let result : Option (List Nat) × BuildInfo :=
    if matcher.needs_graph then (none, info)
    else
      match matcher.matcher with
      | .inr regex =>
        let key : RegexCacheKey := (regex.pattern, matcher.negate, matcher.empty_always_false)
        match info.regex_cache.lookup key with
        | some set => (set, info)
        | none =>
          let set := TextMatcher.scanSet matcher info
          let set := if set.length > 100 then none else some set
          (set, { info with regex_cache := (key, set) :: info.regex_cache })
      | _ => (none, info)
  (⟨matcher, result.1⟩, result.2)

/-- `PosMatcher { mask }`. -/
structure PosMatcher where
  mask : List Bool

/-- One iteration of the loop in `PosMatcher::new` (impls.rs:68-70):
`mask[*id as usize] = matcher.is_match(word, &graph, None)`.  The indexed
write panics when the id is out of range, modelled by `none`. -/
def maskStep (matcher : Matcher) (acc : Option (List Bool)) (wi : String × Nat) :
    Option (List Bool) :=
  acc.bind (fun m =>
    if wi.2 < m.length then some (m.set wi.2 (matcher.is_match wi.1 MatchGraph.default))
    else none)

/-- `PosMatcher::new` (impls.rs:64-73): a boolean mask sized to the tag
store, written once per stored (tag, id) pair; `none` models the panic of
an out-of-range indexed write. -/
def PosMatcher.new (matcher : Matcher) (info : BuildInfo) : Option PosMatcher :=
  (info.tagger.tag_store.foldl (maskStep matcher)
      (some (List.replicate info.tagger.tag_store.length false))).map
    (fun m => ⟨m⟩)

/-! ## The disambiguation (tokenizer) pipeline -/

/-- The group ancestor of a rule structure: `group.id` and `group.n`. -/
structure IndexedGroup where
  id : String
  n : Nat
deriving DecidableEq

/-- The formatted fallback id `"{group.id}.{group.n}"`. -/
def IndexedGroup.fullId (g : IndexedGroup) : String := g.id ++ "." ++ toString g.n

/-- The structural definition of a disambiguation rule, as far as the
pipeline inspects it: the optional explicit id.  `payload` stands for the
rest of the structure, consumed only by the (external) rule builder. -/
structure DisambRuleStructure where
  id : Option String
  payload : Nat
deriving DecidableEq

/-- `DisambiguationRule`, as far as the pipeline manipulates it: the
resolved id plus opaque content. -/
structure DisambiguationRule where
  id : String
  payload : Nat
deriving DecidableEq

/-- `TokenizerOptions`: the configuration surface of the pipeline. -/
structure TokenizerOptions where
  ids : List String
  ignore_ids : List String
  allow_errors : Bool
deriving DecidableEq

/-- `Tokenizer`, as far as `from_xml` assembles it. -/
structure Tokenizer where
  tagger : Tagger
  chunker : Option Nat
  rules : List DisambiguationRule
  options : TokenizerOptions

/-- Id resolution of `Tokenizer::from_xml` (impls.rs:175-181): explicit
id if present, else `"{group.id}.{group.n}"`; `none` models the
`expect("must have group if ID not set")` panic. -/
def resolveDisambigId (rs : DisambRuleStructure) (group : Option IndexedGroup) :
    Option String :=
  match rs.id with
  | some x => some x
  | none => group.map IndexedGroup.fullId

/-- The `filter_map` loop of `Tokenizer::from_xml` (impls.rs:171-207),
with the captured mutable `error` slot threaded as state.  The first
argument of the state is the error slot, the result carries the final
slot and the collected rules; the outer `Option` models a panic.
`DisambiguationRule::from_rule_structure` is external to the embedded
file and is taken as the `build` parameter. -/
def tokenizerFilterMap (options : TokenizerOptions)
    (build : DisambRuleStructure → Except String DisambiguationRule) :
    Option String → List (Except String (DisambRuleStructure × Option IndexedGroup)) →
    Option (Option String × List DisambiguationRule)
  | error, [] => some (error, [])
  | _, .error x :: rest =>
    tokenizerFilterMap options build (some ("[Structure] " ++ x)) rest
  | error, .ok (rs, group) :: rest =>
    match resolveDisambigId rs group with
    | none => none
    | some id =>
      match build rs with
      | .ok rule =>
        if error.isNone && (options.ids.isEmpty || options.ids.contains id)
            && !(options.ignore_ids.contains id) then
          (tokenizerFilterMap options build error rest).map
            (fun p => (p.1, { rule with id := id } :: p.2))
        else
          tokenizerFilterMap options build error rest
      | .error x => tokenizerFilterMap options build (some ("[Rule] " ++ x)) rest

/-- `Tokenizer::from_xml` (impls.rs:160-223).  The structural reader is
external, so the parsed entry sequence is a parameter; the outer `Option`
models a panic; the inner `Except` is the function's `Result`.  When the
error slot is filled at the end, `allow_errors` downgrades it to a
warning and the truncated rule list is returned; otherwise the whole
construction fails. -/
def Tokenizer.from_xml (build : DisambRuleStructure → Except String DisambiguationRule)
    (info : BuildInfo) (chunker : Option Nat)
    (entries : List (Except String (DisambRuleStructure × Option IndexedGroup)))
    (options : TokenizerOptions) : Option (Except String Tokenizer) :=
  (tokenizerFilterMap options build none entries).map (fun p =>
    match p.1 with
    | some x =>
      if options.allow_errors then
        .ok { tagger := info.tagger, chunker := chunker, rules := p.2, options := options }
      else
        .error ("Error constructing Disambiguator: " ++ x)
    | none => .ok { tagger := info.tagger, chunker := chunker, rules := p.2, options := options })

/-! ## The grammar (rules) pipeline -/

/-- A rule category ancestor. -/
structure Category where
  id : String
  name : String
  kind : Option String
  default : Option String
deriving DecidableEq

/-- A rule group ancestor (grammar side): id, name, running index `n`,
and optional `default` attribute. -/
structure GrammarGroup where
  id : String
  name : String
  n : Nat
  default : Option String
deriving DecidableEq

/-- The formatted fallback id `"{group.id}.{group.n}"`. -/
def GrammarGroup.fullId (g : GrammarGroup) : String := g.id ++ "." ++ toString g.n

/-- The structural definition of a grammar rule, as far as the pipeline
inspects it: optional explicit id, name and `default` attribute;
`payload` stands for the rest, consumed only by the external builder. -/
structure GrammarRuleStructure where
  id : Option String
  name : Option String
  default : Option String
  payload : Nat
deriving DecidableEq

/-- `Rule`, as far as the pipeline manipulates it. -/
structure Rule where
  id : String
  name : String
  «on» : Bool
  category_id : String
  category_name : String
  category_type : Option String
  payload : Nat
deriving DecidableEq

/-- `RulesOptions`: allow-list and deny-list. -/
structure RulesOptions where
  ids : List String
  ignore_ids : List String
deriving DecidableEq

/-- `Rules`: the final grammar rule collection. -/
structure Rules where
  rules : List Rule
deriving DecidableEq

/-- Id resolution of `Rules::from_xml` (impls.rs:92-98): explicit id if
present, else `"{group.id}.{group.n}"`; `none` models the
`expect("must have group if ID not set")` panic. -/
def resolveRuleId (rs : GrammarRuleStructure) (group : Option GrammarGroup) : Option String :=
  match rs.id with
  | some x => some x
  | none => group.map GrammarGroup.fullId

/-- Name resolution of `Rules::from_xml` (impls.rs:111-117): explicit
name if present, else the group's name; `none` models the
`expect("must have group if name not set")` panic. -/
def resolveRuleName (rs : GrammarRuleStructure) (group : Option GrammarGroup) : Option String :=
  match rs.name with
  | some x => some x
  | none => group.map GrammarGroup.name

/-- Enabled-state resolution of `Rules::from_xml` (impls.rs:100-110):
`rule_structure.default.map(|x| x == "off").or_else(|| group's
default).or_else(|| category's default).unwrap_or(false)`. -/
def resolveOff (rs : GrammarRuleStructure) (group : Option GrammarGroup)
    (category : Category) : Bool :=
  (((rs.default.map (fun x => x == "off")).orElse
        (fun _ => group.bind (fun g => g.default.map (fun x => x == "off")))).orElse
      (fun _ => category.default.map (fun x => x == "off"))).getD false

/-- `*errors.entry(msg).or_insert(0) += 1` (impls.rs:136,142): the
`HashMap<String, usize>` is modelled as an association list in first-seen
order. -/
def bumpError (m : List (String × Nat)) (k : String) : List (String × Nat) :=
  if m.any (fun p => p.1 == k) then
    m.map (fun p => if p.1 == k then (p.1, p.2 + 1) else p)
  else m ++ [(k, 1)]

/-- The `filter_map` loop of `Rules::from_xml` (impls.rs:88-146), with
the captured mutable `errors` map threaded as state; the outer `Option`
models a panic (missing group for id/name resolution, or missing
category).  `Rule::from_rule_structure` is external and is taken as the
`build` parameter. -/
def rulesFilterMap (options : RulesOptions)
    (build : GrammarRuleStructure → Except String Rule) :
    List (String × Nat) →
    List (Except String (GrammarRuleStructure × Option GrammarGroup × Option Category)) →
    Option (List (String × Nat) × List Rule)
  | errors, [] => some (errors, [])
  | errors, .error x :: rest =>
    rulesFilterMap options build (bumpError errors ("[Structure] " ++ x)) rest
  | errors, .ok (rs, group, category) :: rest =>
    match resolveRuleId rs group with
    | none => none
    | some id =>
      match category with
      | none => none
      | some category =>
        let off := resolveOff rs group category
        match resolveRuleName rs group with
        | none => none
        | some name =>
          match build rs with
          | .ok rule =>
            if (options.ids.isEmpty || options.ids.contains id)
                && !(options.ignore_ids.contains id) then
              (rulesFilterMap options build errors rest).map (fun p =>
                (p.1, { rule with
                          id := id, name := name, «on» := !off,
                          category_id := category.id,
                          category_name := category.name,
                          category_type := category.kind } :: p.2))
            else rulesFilterMap options build errors rest
          | .error x => rulesFilterMap options build (bumpError errors ("[Rule] " ++ x)) rest

/-- Sort key of `errors.sort_by_key(|x| -(x.1 as i32))` (impls.rs:150):
descending by count. -/
def countGe (a b : String × Nat) : Prop := b.2 ≤ a.2

instance : DecidableRel countGe := fun a b => Nat.decLe b.2 a.2

instance : IsTotal (String × Nat) countGe := ⟨fun a b => le_total b.2 a.2⟩

instance : IsTrans (String × Nat) countGe := ⟨fun _ _ _ hab hbc => le_trans hbc hab⟩

/-- The sort in impls.rs:149-150 (a stable sort descending by count). -/
def sortErrors (errors : List (String × Nat)) : List (String × Nat) :=
  List.insertionSort countGe errors

/-- `Rules::from_xml` (impls.rs:77-156).  The structural reader is
external, so the parsed entry sequence is a parameter.  The Rust function
returns `Rules` unconditionally and reports the aggregated error counts
through a single `warn!` after sorting them descending by count; the
second component of the result models that warning's payload (empty when
no error occurred, in which case no warning is emitted).  The outer
`Option` models a panic. -/
def Rules.from_xml (build : GrammarRuleStructure → Except String Rule)
    (entries : List (Except String (GrammarRuleStructure × Option GrammarGroup × Option Category)))
    (options : RulesOptions) : Option (Rules × List (String × Nat)) :=
  (rulesFilterMap options build [] entries).map (fun p => (⟨p.2⟩, sortErrors p.1))

/-- Spec-side helper (used only to state C8): the formatted failure
message of one entry, if it fails. -/
def grammarFailureMsg (build : GrammarRuleStructure → Except String Rule) :
    Except String (GrammarRuleStructure × Option GrammarGroup × Option Category) →
    Option String
  | .error x => some ("[Structure] " ++ x)
  | .ok (rs, _, _) =>
    match build rs with
    | .error x => some ("[Rule] " ++ x)
    | .ok _ => none

/-- Spec-side helper (used only to state C8): all failure messages of an
entry sequence, in order. -/
def grammarFailureMsgs (build : GrammarRuleStructure → Except String Rule)
    (entries : List (Except String (GrammarRuleStructure × Option GrammarGroup × Option Category))) :
    List String :=
  entries.filterMap (grammarFailureMsg build)

/-- Spec-side helper (used only to state C8), following the spec's words
"every rule that built and passed filtering": the rule an entry
contributes, if any. -/
def grammarSpecRule (options : RulesOptions)
    (build : GrammarRuleStructure → Except String Rule) :
    Except String (GrammarRuleStructure × Option GrammarGroup × Option Category) →
    Option Rule
  | .error _ => none
  | .ok (rs, group, category) =>
    (resolveRuleId rs group).bind (fun id =>
      category.bind (fun category =>
        (resolveRuleName rs group).bind (fun name =>
          match build rs with
          | .error _ => none
          | .ok rule =>
            if (options.ids.isEmpty || options.ids.contains id)
                && !(options.ignore_ids.contains id) then
              some { rule with
                      id := id, name := name, «on» := !(resolveOff rs group category),
                      category_id := category.id,
                      category_name := category.name,
                      category_type := category.kind }
            else none)))

/-- Spec-side helper (used only to state C8): every rule that built and
passed filtering, in order. -/
def grammarSpecRules (options : RulesOptions)
    (build : GrammarRuleStructure → Except String Rule)
    (entries : List (Except String (GrammarRuleStructure × Option GrammarGroup × Option Category))) :
    List Rule :=
  entries.filterMap (grammarSpecRule options build)

/-- Well-formedness of one grammar entry: the metadata panics of
`Rules::from_xml` (missing group when no explicit id or name, missing
category) cannot fire. -/
def grammarEntryWF :
    Except String (GrammarRuleStructure × Option GrammarGroup × Option Category) → Bool
  | .error _ => true
  | .ok (rs, group, category) =>
    (rs.id.isSome || group.isSome) && (rs.name.isSome || group.isSome) && category.isSome

/-- Example regex: matches exactly the word `"a"`. -/
def sampleRegex : SerializeRegex := ⟨"a", fun s => s == "a"⟩

/-- Example regex-backed matcher. -/
def sampleRegexMatcher : Matcher := Matcher.new_regex sampleRegex false false

/-- Example build state: a two-word vocabulary, empty cache. -/
def sampleBuildInfo : BuildInfo := ⟨⟨[("a", 0), ("b", 1)], []⟩, []⟩

/-- Example build state with a well-formed two-tag store. -/
def samplePosInfo : BuildInfo := ⟨⟨[], [("NN", 0), ("VB", 1)]⟩, []⟩

/-- Example build state whose tag store holds an out-of-range id. -/
def sampleBadPosInfo : BuildInfo := ⟨⟨[], [("NN", 5)]⟩, []⟩

/-- Example string-backed matcher for the literal `"NN"`. -/
def sampleStringMatcher : Matcher := Matcher.new_string (.inl "NN") false true false

/-- Example external rule builder for disambiguation rules: payload 0
entries build, everything else fails. -/
def sampleDisambBuild (rs : DisambRuleStructure) : Except String DisambiguationRule :=
  if rs.payload == 0 then .ok ⟨"", rs.payload⟩ else .error "bad pattern"

/-- Example external rule builder for grammar rules: payload 0 entries
build, everything else fails. -/
def sampleGrammarBuild (rs : GrammarRuleStructure) : Except String Rule :=
  if rs.payload == 0 then .ok ⟨"", "", true, "", "", none, rs.payload⟩
  else .error "bad pattern"

/-- Rewriting lemma exposing the body of `AndAtom.and`. -/
theorem AndAtom.and_eq (atoms : List Atom) :
    AndAtom.and atoms =
      match atoms.filter (fun x => !x.isTrueAtom) with
      | [] => .TrueAtom
      | [a] => a
      | l => .AndAtom l := rfl

/-- Rewriting lemma exposing the body of `OrAtom.or`. -/
theorem OrAtom.or_eq (atoms : List Atom) :
    OrAtom.or atoms =
      match atoms.filter (fun x => !x.isFalseAtom) with
      | [] => .FalseAtom
      | [a] => a
      | l => .OrAtom l := rfl

/-- C3 counterexample: the smart constructor `NotAtom::not` does build a
nested `Not` when its argument is already a `Not` atom, contradicting the
claim that `Not(Not(a))` is never constructed as nested Not: double
negation of a leaf yields `NotAtom (NotAtom leaf)`. -/
theorem notAtom_nested_not_counterexample :
    NotAtom.not (NotAtom.not (.LeafAtom 0)) = .NotAtom (.NotAtom (.LeafAtom 0)) := rfl

/-- C3 (amended): `NotAtom::not` maps `True` to `False` and `False` to
`True`; on every other atom — including atoms that are themselves `Not`
atoms — it wraps its argument in exactly one new `Not` layer, so a `Not`
node produced by the constructor never directly wraps `True` or `False`,
but nested `Not` atoms can be constructed. -/
theorem notAtom_not_amended :
    NotAtom.not .TrueAtom = .FalseAtom ∧
    NotAtom.not .FalseAtom = .TrueAtom ∧
    (∀ a : Atom, a ≠ .TrueAtom → a ≠ .FalseAtom → NotAtom.not a = .NotAtom a) ∧
    (∀ a b : Atom, NotAtom.not a = .NotAtom b →
      b = a ∧ b ≠ .TrueAtom ∧ b ≠ .FalseAtom) := by
  refine ⟨rfl, rfl, ?_, ?_⟩
  · intro a h1 h2
    cases a with
    | TrueAtom => exact absurd rfl h1
    | FalseAtom => exact absurd rfl h2
    | AndAtom l => rfl
    | OrAtom l => rfl
    | NotAtom x => rfl
    | OffsetAtom x o => rfl
    | LeafAtom n => rfl
  · intro a b h
    cases a with
    | TrueAtom => exact absurd h nofun
    | FalseAtom => exact absurd h nofun
    | AndAtom l =>
      injection h with h1
      exact ⟨h1.symm, by intro hh; rw [hh] at h1; exact Atom.noConfusion h1,
        by intro hh; rw [hh] at h1; exact Atom.noConfusion h1⟩
    | OrAtom l =>
      injection h with h1
      exact ⟨h1.symm, by intro hh; rw [hh] at h1; exact Atom.noConfusion h1,
        by intro hh; rw [hh] at h1; exact Atom.noConfusion h1⟩
    | NotAtom x =>
      injection h with h1
      exact ⟨h1.symm, by intro hh; rw [hh] at h1; exact Atom.noConfusion h1,
        by intro hh; rw [hh] at h1; exact Atom.noConfusion h1⟩
    | OffsetAtom x o =>
      injection h with h1
      exact ⟨h1.symm, by intro hh; rw [hh] at h1; exact Atom.noConfusion h1,
        by intro hh; rw [hh] at h1; exact Atom.noConfusion h1⟩
    | LeafAtom n =>
      injection h with h1
      exact ⟨h1.symm, by intro hh; rw [hh] at h1; exact Atom.noConfusion h1,
        by intro hh; rw [hh] at h1; exact Atom.noConfusion h1⟩

/-- C3 witness: the amended theorem applied to a leaf atom. -/
theorem notAtom_not_amended_witness :
    NotAtom.not (.LeafAtom 0) = .NotAtom (.LeafAtom 0) :=
  notAtom_not_amended.2.2.1 (.LeafAtom 0) nofun nofun

/-- C6: `AndAtom::and []` is `True`, `OrAtom::or []` is `False`,
singleton inputs are returned unchanged, and whenever the smart
constructor actually wraps a list (rather than passing an input atom
through), the wrapped children contain no identity element: an `AndAtom`
result that was not already an element of the input has no `TrueAtom`
child, and an `OrAtom` result that was not already an element of the
input has no `FalseAtom` child. -/
theorem andAtom_orAtom_normalization :
    AndAtom.and [] = .TrueAtom ∧
    OrAtom.or [] = .FalseAtom ∧
    (∀ a : Atom, AndAtom.and [a] = a) ∧
    (∀ a : Atom, OrAtom.or [a] = a) ∧
    (∀ (atoms l : List Atom), AndAtom.and atoms = .AndAtom l →
      .AndAtom l ∈ atoms ∨ .TrueAtom ∉ l) ∧
    (∀ (atoms l : List Atom), OrAtom.or atoms = .OrAtom l →
      .OrAtom l ∈ atoms ∨ .FalseAtom ∉ l) := by
  refine ⟨rfl, rfl, ?_, ?_, ?_, ?_⟩
  · intro a; cases a <;> rfl
  · intro a; cases a <;> rfl
  · intro atoms l h
    rw [AndAtom.and_eq] at h
    cases hf : atoms.filter (fun x => !x.isTrueAtom) with
    | nil => rw [hf] at h; exact absurd h nofun
    | cons a t =>
      cases t with
      | nil =>
        rw [hf] at h
        simp only [] at h
        left
        have ha : a ∈ atoms.filter (fun x => !x.isTrueAtom) := by
          rw [hf]; exact List.mem_cons_self a []
        rw [← h]
        exact List.mem_of_mem_filter ha
      | cons b t2 =>
        rw [hf] at h
        simp only [] at h
        injection h with h1
        right
        intro hT
        rw [← h1] at hT
        have hmem : Atom.TrueAtom ∈ atoms.filter (fun x => !x.isTrueAtom) := by
          rw [hf]; exact hT
        have := List.of_mem_filter hmem
        simp [Atom.isTrueAtom] at this
  · intro atoms l h
    rw [OrAtom.or_eq] at h
    cases hf : atoms.filter (fun x => !x.isFalseAtom) with
    | nil => rw [hf] at h; exact absurd h nofun
    | cons a t =>
      cases t with
      | nil =>
        rw [hf] at h
        simp only [] at h
        left
        have ha : a ∈ atoms.filter (fun x => !x.isFalseAtom) := by
          rw [hf]; exact List.mem_cons_self a []
        rw [← h]
        exact List.mem_of_mem_filter ha
      | cons b t2 =>
        rw [hf] at h
        simp only [] at h
        injection h with h1
        right
        intro hT
        rw [← h1] at hT
        have hmem : Atom.FalseAtom ∈ atoms.filter (fun x => !x.isFalseAtom) := by
          rw [hf]; exact hT
        have := List.of_mem_filter hmem
        simp [Atom.isFalseAtom] at this

/-- Helper: a successful association-list lookup comes from a member. -/
theorem mem_of_lookup_eq_some {l : List (Nat × Nat)} {k v : Nat}
    (h : l.lookup k = some v) : (k, v) ∈ l := by
  induction l with
  | nil => simp [List.lookup] at h
  | cons p t ih =>
    obtain ⟨pk, pv⟩ := p
    cases hbeq : (k == pk) with
    | true =>
      simp only [List.lookup, hbeq] at h
      have hk : k = pk := eq_of_beq hbeq
      subst hk
      injection h with h
      subst h
      exact List.mem_cons_self _ _
    | false =>
      simp only [List.lookup, hbeq] at h
      exact List.mem_cons_of_mem _ (ih h)

/-- Helper: `groupIdsToIdxAux c i parts` lists, for each visible part,
the running id (from `c`) paired with the part's index (from `i`)
shifted by one. -/
theorem groupIdsToIdxAux_eq (parts : List Part) : ∀ c i,
    groupIdsToIdxAux c i parts =
      ((((parts.enumFrom i).filter (fun q => q.2.visible)).map Prod.fst).enumFrom c).map
        (fun ki => (ki.1, ki.2 + 1)) := by
  induction parts with
  | nil => intro c i; rfl
  | cons p rest ih =>
    intro c i
    cases hv : p.visible with
    | true =>
      simp [groupIdsToIdxAux, hv, List.enumFrom_cons, List.filter_cons, ih]
    | false =>
      simp [groupIdsToIdxAux, hv, List.enumFrom_cons, List.filter_cons, ih]

/-- Helper: shifting the start of an enumeration by one is the same as
adding one to every assigned index. -/
theorem map_enumFrom_shift (l : List Nat) : ∀ c : Nat,
    (l.enumFrom (c + 1)).map (fun ki => (ki.1, ki.2 + 1)) =
      (l.enumFrom c).map (fun ki => (ki.1 + 1, ki.2 + 1)) := by
  induction l with
  | nil => intro c; rfl
  | cons a t ih =>
    intro c
    simp only [List.enumFrom_cons, List.map_cons, ih (c + 1)]

/-- C2 counterexample: for parts `[visible, invisible, visible]` the map
`group_ids_to_idx` sends group 1 to 1 (not to part index 0) and group 2
to 3 (not to part index 2) — the stored values are the part indices
shifted by one. -/
theorem composition_group_ids_counterexample :
    (Composition.new [visiblePart, invisiblePart, visiblePart]).group_ids_to_idx.lookup 1 =
        some 1 ∧
    (Composition.new [visiblePart, invisiblePart, visiblePart]).group_ids_to_idx.lookup 2 =
        some 3 ∧
    some (1 : Nat) ≠ some (0 : Nat) ∧ some (3 : Nat) ≠ some (2 : Nat) :=
  ⟨rfl, rfl, by decide, by decide⟩

/-- C2 (amended): `group_ids_to_idx` maps group 0 to 0 and, walking the
parts in order, assigns each visible part the next sequential positive
group id mapped to that part's index plus one (index 0 of the codomain
denotes the whole composition's span, so part `i` lives at `i + 1`).
For parts `[visible, invisible, visible]`: group 1 maps to 1 (part index
0), group 2 maps to 3 (part index 2), and no group id maps to 2, the
slot of the invisible part at index 1. -/
theorem composition_group_ids_amended :
    (∀ parts : List Part,
      (Composition.new parts).group_ids_to_idx =
        (0, 0) :: (visibleIndices parts).enum.map (fun ki => (ki.1 + 1, ki.2 + 1))) ∧
    (Composition.new [visiblePart, invisiblePart, visiblePart]).group_ids_to_idx.lookup 0 =
        some 0 ∧
    (Composition.new [visiblePart, invisiblePart, visiblePart]).group_ids_to_idx.lookup 1 =
        some 1 ∧
    (Composition.new [visiblePart, invisiblePart, visiblePart]).group_ids_to_idx.lookup 2 =
        some 3 ∧
    (∀ g : Nat,
      (Composition.new [visiblePart, invisiblePart, visiblePart]).group_ids_to_idx.lookup g ≠
        some 2) := by
  refine ⟨?_, rfl, rfl, rfl, ?_⟩
  · intro parts
    show (0, 0) :: groupIdsToIdxAux 1 0 parts = _
    rw [groupIdsToIdxAux_eq]
    congr 1
    have h1 : (((parts.enumFrom 0).filter (fun q => q.2.visible)).map Prod.fst) =
        visibleIndices parts := rfl
    rw [h1, map_enumFrom_shift (visibleIndices parts) 0]
    rfl
  · intro g hg
    have hmem := mem_of_lookup_eq_some hg
    have : (g, 2) ∈ [((0 : Nat), (0 : Nat)), (1, 1), (2, 3)] := hmem
    simp only [List.mem_cons, List.not_mem_nil, or_false, Prod.mk.injEq] at this
    omega

/-- C5 counterexample: for quantifier minima `[0, 1, 0]` the computed
`can_stop_mask` is `[false, false, true]`, not `[true, false, true]` as
claimed — index 0 cannot stop because part 1 still requires `min = 1`. -/
theorem can_stop_mask_counterexample :
    Composition.canStopMask [partWithMin 0, partWithMin 1, partWithMin 0] =
      [false, false, true] ∧
    [false, false, true] ≠ [true, false, true] :=
  ⟨rfl, by decide⟩

/-- C5 (amended): `can_stop_mask[i]` is true iff every part at index
`≥ i` has `quantifier.min = 0`; for minima `[1,0,0]` the mask is
`[false,true,true]`, for `[0,0,0]` it is `[true,true,true]`, and for
`[0,1,0]` it is `[false,false,true]` (the claim's `[true,false,true]` at
that input contradicts the characterization at index 0). -/
theorem can_stop_mask_amended :
    (∀ (parts : List Part) (i : Nat)
        (h : i < (Composition.new parts).can_stop_mask.length),
      ((Composition.new parts).can_stop_mask.get ⟨i, h⟩ = true ↔
        ∀ (j : Nat) (hj : j < parts.length), i ≤ j →
          (parts.get ⟨j, hj⟩).quantifier.min = 0)) ∧
    Composition.canStopMask [partWithMin 1, partWithMin 0, partWithMin 0] =
      [false, true, true] ∧
    Composition.canStopMask [partWithMin 0, partWithMin 0, partWithMin 0] =
      [true, true, true] ∧
    Composition.canStopMask [partWithMin 0, partWithMin 1, partWithMin 0] =
      [false, false, true] := by
  refine ⟨?_, rfl, rfl, rfl⟩
  intro parts i h
  have hmask : (Composition.new parts).can_stop_mask =
      (List.range parts.length).map
        (fun k => (parts.drop k).all (fun x => x.quantifier.min == 0)) := rfl
  have hi : i < parts.length := by
    rw [hmask] at h; simpa using h
  have hval : (Composition.new parts).can_stop_mask.get ⟨i, h⟩ =
      (parts.drop i).all (fun x => x.quantifier.min == 0) := by
    simp [List.get_eq_getElem, hmask, List.getElem_map, List.getElem_range]
  rw [hval, List.all_eq_true]
  constructor
  · intro hall j hj hij
    have hd : j - i < (parts.drop i).length := by
      rw [List.length_drop]; omega
    have hx : (parts.drop i).get ⟨j - i, hd⟩ = parts.get ⟨j, hj⟩ := by
      simp only [List.get_eq_getElem, List.getElem_drop]
      congr 1
      omega
    have hmem : parts.get ⟨j, hj⟩ ∈ parts.drop i := by
      rw [← hx]; exact List.get_mem _ _ _
    have := hall _ hmem
    simpa using this
  · intro hmin x hxmem
    obtain ⟨k, hk, hxe⟩ := List.mem_iff_getElem.mp hxmem
    have hkl : i + k < parts.length := by
      rw [List.length_drop] at hk; omega
    have hxk : x = parts.get ⟨i + k, hkl⟩ := by
      rw [← hxe]; simp [List.get_eq_getElem, List.getElem_drop]
    rw [hxk]
    have := hmin (i + k) hkl (by omega)
    simpa using this

/-- C5 witness: the characterization instantiated at index 1 of the
`[1,0,0]` example. -/
theorem can_stop_mask_amended_witness :
    (Composition.new [partWithMin 1, partWithMin 0, partWithMin 0]).can_stop_mask.get
        ⟨1, by decide⟩ = true ↔
      ∀ (j : Nat) (hj : j < ([partWithMin 1, partWithMin 0, partWithMin 0] : List Part).length),
        1 ≤ j →
          (([partWithMin 1, partWithMin 0, partWithMin 0] : List Part).get
            ⟨j, hj⟩).quantifier.min = 0 :=
  can_stop_mask_amended.1 [partWithMin 1, partWithMin 0, partWithMin 0] 1 (by decide)

/-- C2 witness: the amended characterization evaluated on the example
parts. -/
theorem composition_group_ids_amended_witness :
    (Composition.new [visiblePart, invisiblePart, visiblePart]).group_ids_to_idx =
      (0, 0) :: (visibleIndices [visiblePart, invisiblePart, visiblePart]).enum.map
        (fun ki => (ki.1 + 1, ki.2 + 1)) :=
  composition_group_ids_amended.1 [visiblePart, invisiblePart, visiblePart]

/-- C6 witness: the normalization theorem applied to two-leaf inputs. -/
theorem andAtom_orAtom_normalization_witness :
    (Atom.AndAtom [.LeafAtom 0, .LeafAtom 1] ∈ [Atom.LeafAtom 0, Atom.LeafAtom 1] ∨
      Atom.TrueAtom ∉ [Atom.LeafAtom 0, Atom.LeafAtom 1]) ∧
    (Atom.OrAtom [.LeafAtom 0, .LeafAtom 1] ∈ [Atom.LeafAtom 0, Atom.LeafAtom 1] ∨
      Atom.FalseAtom ∉ [Atom.LeafAtom 0, Atom.LeafAtom 1]) :=
  ⟨andAtom_orAtom_normalization.2.2.2.2.1 [.LeafAtom 0, .LeafAtom 1]
      [.LeafAtom 0, .LeafAtom 1] rfl,
    andAtom_orAtom_normalization.2.2.2.2.2 [.LeafAtom 0, .LeafAtom 1]
      [.LeafAtom 0, .LeafAtom 1] rfl⟩

/-- C4: for a regex-backed matcher, `TextMatcher::new` (a) on a cache
hit returns the cached (possibly-`none`) set and leaves the build state
untouched, (b) on a cache miss scans the vocabulary, stores `none`
whenever the scanned set exceeds 100 members and the set itself
otherwise, and pushes the (possibly-`none`) result into the cache before
returning, and (c) the cache afterwards holds the returned result under
the (pattern, negate, empty_always_false) signature, so re-running the
same construction is a pure cache hit: it returns the same set and
leaves the build state unchanged. -/
theorem textMatcher_new_cutoff_and_cache :
    ∀ (m : Matcher) (r : SerializeRegex), m.matcher = .inr r →
    ∀ info : BuildInfo,
      (∀ v, info.regex_cache.lookup (r.pattern, m.negate, m.empty_always_false) = some v →
        TextMatcher.new m info = (⟨m, v⟩, info)) ∧
      (info.regex_cache.lookup (r.pattern, m.negate, m.empty_always_false) = none →
        (TextMatcher.new m info).1.set =
          (if (TextMatcher.scanSet m info).length > 100 then none
            else some (TextMatcher.scanSet m info)) ∧
        ((TextMatcher.scanSet m info).length > 100 → (TextMatcher.new m info).1.set = none) ∧
        (TextMatcher.new m info).2.regex_cache =
          ((r.pattern, m.negate, m.empty_always_false), (TextMatcher.new m info).1.set) ::
            info.regex_cache ∧
        (TextMatcher.new m info).2.tagger = info.tagger) ∧
      (TextMatcher.new m info).2.regex_cache.lookup
          (r.pattern, m.negate, m.empty_always_false) = some (TextMatcher.new m info).1.set ∧
      (TextMatcher.new m ((TextMatcher.new m info).2)).1.set =
        (TextMatcher.new m info).1.set ∧
      (TextMatcher.new m ((TextMatcher.new m info).2)).2 = (TextMatcher.new m info).2 := by
  intro m r hm
  have hng : m.needs_graph = false := by
    simp [Matcher.needs_graph, hm]
  have hnew : ∀ info : BuildInfo, TextMatcher.new m info =
      (match info.regex_cache.lookup (r.pattern, m.negate, m.empty_always_false) with
        | some set => (⟨m, set⟩, info)
        | none =>
          (⟨m, if (TextMatcher.scanSet m info).length > 100 then none
                else some (TextMatcher.scanSet m info)⟩,
            { info with
                regex_cache :=
                  ((r.pattern, m.negate, m.empty_always_false),
                    if (TextMatcher.scanSet m info).length > 100 then none
                    else some (TextMatcher.scanSet m info)) :: info.regex_cache })) := by
    intro info
    simp only [TextMatcher.new, hng, hm]
    cases info.regex_cache.lookup (r.pattern, m.negate, m.empty_always_false) <;> simp
  intro info
  have hpost : (TextMatcher.new m info).2.regex_cache.lookup
      (r.pattern, m.negate, m.empty_always_false) = some (TextMatcher.new m info).1.set := by
    cases hl : info.regex_cache.lookup (r.pattern, m.negate, m.empty_always_false) with
    | some v => rw [hnew info, hl]; exact hl
    | none => rw [hnew info, hl]; simp [List.lookup]
  refine ⟨?_, ?_, hpost, ?_, ?_⟩
  · intro v hv
    rw [hnew info, hv]
  · intro hnone
    rw [hnew info, hnone]
    refine ⟨rfl, ?_, rfl, rfl⟩
    intro hgt
    simp [hgt]
  · rw [hnew ((TextMatcher.new m info).2), hpost]
  · rw [hnew ((TextMatcher.new m info).2), hpost]

/-- C4 witness: the theorem evaluated on a concrete vocabulary (the
sample regex matches one word, so the set `[0]` is kept and cached, and
the second construction is a cache hit leaving the state unchanged). -/
theorem textMatcher_new_cutoff_and_cache_witness :
    (TextMatcher.new sampleRegexMatcher sampleBuildInfo).1.set = some [0] ∧
    (TextMatcher.new sampleRegexMatcher sampleBuildInfo).2.regex_cache =
      [(("a", false, false), some [0])] ∧
    (TextMatcher.new sampleRegexMatcher
        ((TextMatcher.new sampleRegexMatcher sampleBuildInfo).2)).2 =
      (TextMatcher.new sampleRegexMatcher sampleBuildInfo).2 := by
  have h := textMatcher_new_cutoff_and_cache sampleRegexMatcher sampleRegex rfl sampleBuildInfo
  obtain ⟨hset, hgt, hcache, htag⟩ := h.2.1 rfl
  refine ⟨?_, ?_, h.2.2.2.2⟩
  · rw [hset]; decide
  · rw [hcache, hset]; decide

/-- Helper: once the mask accumulator has panicked, it stays panicked. -/
theorem maskStep_foldl_none (matcher : Matcher) (l : List (String × Nat)) :
    l.foldl (maskStep matcher) none = none := by
  induction l with
  | nil => rfl
  | cons p t ih => simpa [maskStep] using ih

/-- Helper: the mask fold preserves the mask length. -/
theorem maskStep_foldl_length (matcher : Matcher) :
    ∀ (l : List (String × Nat)) (m0 mF : List Bool),
      l.foldl (maskStep matcher) (some m0) = some mF → mF.length = m0.length := by
  intro l
  induction l with
  | nil =>
    intro m0 mF h
    injection h with h
    rw [← h]
  | cons p t ih =>
    intro m0 mF h
    rw [List.foldl_cons] at h
    by_cases hp : p.2 < m0.length
    · have hstep : maskStep matcher (some m0) p =
          some (m0.set p.2 (matcher.is_match p.1 MatchGraph.default)) := by
        simp [maskStep, hp]
      rw [hstep] at h
      have := ih _ _ h
      simpa [List.length_set] using this
    · have hstep : maskStep matcher (some m0) p = none := by
        simp [maskStep, hp]
      rw [hstep, maskStep_foldl_none] at h
      exact absurd h nofun

/-- Helper: when every id is in range the mask fold succeeds. -/
theorem maskStep_foldl_some (matcher : Matcher) :
    ∀ (l : List (String × Nat)) (m0 : List Bool),
      (∀ wi ∈ l, wi.2 < m0.length) →
      ∃ mF, l.foldl (maskStep matcher) (some m0) = some mF := by
  intro l
  induction l with
  | nil => intro m0 _; exact ⟨m0, rfl⟩
  | cons p t ih =>
    intro m0 hall
    have hp : p.2 < m0.length := hall p (List.mem_cons_self _ _)
    rw [List.foldl_cons]
    have hstep : maskStep matcher (some m0) p =
        some (m0.set p.2 (matcher.is_match p.1 MatchGraph.default)) := by
      simp [maskStep, hp]
    rw [hstep]
    refine ih _ ?_
    intro wi hwi
    have := hall wi (List.mem_cons_of_mem _ hwi)
    simpa [List.length_set] using this

/-- Helper: an out-of-range id makes the mask fold panic. -/
theorem maskStep_foldl_oob (matcher : Matcher) :
    ∀ (l : List (String × Nat)) (m0 : List Bool),
      (∃ wi ∈ l, m0.length ≤ wi.2) →
      l.foldl (maskStep matcher) (some m0) = none := by
  intro l
  induction l with
  | nil =>
    intro m0 h
    obtain ⟨wi, hwi, _⟩ := h
    simp at hwi
  | cons p t ih =>
    intro m0 h
    rw [List.foldl_cons]
    by_cases hp : p.2 < m0.length
    · have hstep : maskStep matcher (some m0) p =
          some (m0.set p.2 (matcher.is_match p.1 MatchGraph.default)) := by
        simp [maskStep, hp]
      rw [hstep]
      obtain ⟨wi, hwi, hge⟩ := h
      rcases List.mem_cons.mp hwi with heq | hmem
      · rw [heq] at hge; omega
      · refine ih _ ⟨wi, hmem, ?_⟩
        simpa [List.length_set] using hge
    · have hstep : maskStep matcher (some m0) p = none := by
        simp [maskStep, hp]
      rw [hstep, maskStep_foldl_none]

/-- Helper: positions whose id never occurs in the processed pairs keep
their initial value. -/
theorem maskStep_foldl_untouched (matcher : Matcher) :
    ∀ (l : List (String × Nat)) (m0 mF : List Bool),
      l.foldl (maskStep matcher) (some m0) = some mF →
      ∀ j, j ∉ l.map Prod.snd → mF[j]? = m0[j]? := by
  intro l
  induction l with
  | nil =>
    intro m0 mF h j _
    injection h with h
    rw [h]
  | cons p t ih =>
    intro m0 mF h j hj
    rw [List.foldl_cons] at h
    rw [List.map_cons] at hj
    have hj2 : j ≠ p.2 ∧ j ∉ t.map Prod.snd := by
      rw [List.mem_cons] at hj
      exact ⟨fun hc => hj (Or.inl hc), fun hc => hj (Or.inr hc)⟩
    by_cases hp : p.2 < m0.length
    · have hstep : maskStep matcher (some m0) p =
          some (m0.set p.2 (matcher.is_match p.1 MatchGraph.default)) := by
        simp [maskStep, hp]
      rw [hstep] at h
      have := ih _ _ h j hj2.2
      rw [this]
      exact List.getElem?_set_ne (fun hc => hj2.1 hc.symm)
    · have hstep : maskStep matcher (some m0) p = none := by
        simp [maskStep, hp]
      rw [hstep, maskStep_foldl_none] at h
      exact absurd h nofun

/-- Helper: with duplicate-free ids, every processed pair's position
holds the matcher's verdict on its tag string. -/
theorem maskStep_foldl_value (matcher : Matcher) :
    ∀ (l : List (String × Nat)) (m0 mF : List Bool),
      l.foldl (maskStep matcher) (some m0) = some mF →
      (l.map Prod.snd).Nodup →
      ∀ wi ∈ l, mF[wi.2]? = some (matcher.is_match wi.1 MatchGraph.default) := by
  intro l
  induction l with
  | nil =>
    intro m0 mF _ _ wi hwi
    simp at hwi
  | cons p t ih =>
    intro m0 mF h hnd wi hwi
    rw [List.foldl_cons] at h
    rw [List.map_cons] at hnd
    have hnd2 := List.nodup_cons.mp hnd
    by_cases hp : p.2 < m0.length
    · have hstep : maskStep matcher (some m0) p =
          some (m0.set p.2 (matcher.is_match p.1 MatchGraph.default)) := by
        simp [maskStep, hp]
      rw [hstep] at h
      rcases List.mem_cons.mp hwi with heq | hmem
      · rw [heq]
        have huntouched := maskStep_foldl_untouched matcher t _ _ h p.2 hnd2.1
        rw [huntouched]
        exact List.getElem?_set_self hp
      · exact ih _ _ h hnd2.2 wi hmem
    · have hstep : maskStep matcher (some m0) p = none := by
        simp [maskStep, hp]
      rw [hstep, maskStep_foldl_none] at h
      exact absurd h nofun

/-- C10: `PosMatcher::new` is total exactly when every stored tag id is
strictly below the tag store's size: under that precondition it returns
a mask of that size in which (for the store's duplicate-free ids) every
stored id's slot holds `Matcher::is_match` of the corresponding tag
string; an out-of-range id makes the construction panic. -/
theorem posMatcher_new_totality_and_mask :
    ∀ (matcher : Matcher) (info : BuildInfo),
      ((∀ wi ∈ info.tagger.tag_store, wi.2 < info.tagger.tag_store.length) →
        (PosMatcher.new matcher info).isSome = true ∧
        ((PosMatcher.new matcher info).getD ⟨[]⟩).mask.length =
          info.tagger.tag_store.length ∧
        ((info.tagger.tag_store.map Prod.snd).Nodup →
          ∀ wi ∈ info.tagger.tag_store,
            ((PosMatcher.new matcher info).getD ⟨[]⟩).mask[wi.2]? =
              some (matcher.is_match wi.1 MatchGraph.default))) ∧
      ((∃ wi ∈ info.tagger.tag_store, info.tagger.tag_store.length ≤ wi.2) →
        PosMatcher.new matcher info = none) := by
  intro matcher info
  constructor
  · intro hall
    have hall0 : ∀ wi ∈ info.tagger.tag_store,
        wi.2 < (List.replicate info.tagger.tag_store.length false).length := by
      intro wi hwi
      simpa [List.length_replicate] using hall wi hwi
    obtain ⟨mF, hmF⟩ := maskStep_foldl_some matcher info.tagger.tag_store _ hall0
    have hres : PosMatcher.new matcher info = some ⟨mF⟩ := by
      simp [PosMatcher.new, hmF]
    refine ⟨by simp [hres], ?_, ?_⟩
    · have := maskStep_foldl_length matcher info.tagger.tag_store _ _ hmF
      simp only [hres, Option.getD_some]
      simpa [List.length_replicate] using this
    · intro hnd wi hwi
      have := maskStep_foldl_value matcher info.tagger.tag_store _ _ hmF hnd wi hwi
      simpa [hres] using this
  · intro hex
    obtain ⟨wi, hwi, hge⟩ := hex
    have hfold : info.tagger.tag_store.foldl (maskStep matcher)
        (some (List.replicate info.tagger.tag_store.length false)) = none := by
      refine maskStep_foldl_oob matcher _ _ ⟨wi, hwi, ?_⟩
      simpa [List.length_replicate] using hge
    simp [PosMatcher.new, hfold]

/-- C10 witness: a well-formed two-tag store builds and records the
matcher's verdict, and a store with id 5 but size 1 panics. -/
theorem posMatcher_new_totality_and_mask_witness :
    (PosMatcher.new sampleStringMatcher samplePosInfo).isSome = true ∧
    ((PosMatcher.new sampleStringMatcher samplePosInfo).getD ⟨[]⟩).mask[0]? =
      some (sampleStringMatcher.is_match "NN" MatchGraph.default) ∧
    PosMatcher.new sampleStringMatcher sampleBadPosInfo = none := by
  have h := (posMatcher_new_totality_and_mask sampleStringMatcher samplePosInfo).1 (by decide)
  have hbad := (posMatcher_new_totality_and_mask sampleStringMatcher sampleBadPosInfo).2
    ⟨("NN", 5), by decide, by decide⟩
  exact ⟨h.1, h.2.2 (by decide) ("NN", 0) (by decide), hbad⟩

/-- Helper: the disambiguation loop over a concatenation runs the first
part, then the second part starting from the first part's error slot,
and appends the collected rules. -/
theorem tokenizerFilterMap_append (options : TokenizerOptions)
    (build : DisambRuleStructure → Except String DisambiguationRule) :
    ∀ (l1 l2 : List (Except String (DisambRuleStructure × Option IndexedGroup)))
      (error : Option String),
      tokenizerFilterMap options build error (l1 ++ l2) =
        (tokenizerFilterMap options build error l1).bind (fun p =>
          (tokenizerFilterMap options build p.1 l2).map (fun q => (q.1, p.2 ++ q.2))) := by
  intro l1
  induction l1 with
  | nil =>
    intro l2 error
    simp only [List.nil_append, tokenizerFilterMap]
    cases hx : tokenizerFilterMap options build error l2 with
    | none => simp [hx]
    | some p => simp [hx]
  | cons x t ih =>
    intro l2 error
    cases x with
    | error e =>
      simp only [List.cons_append, tokenizerFilterMap]
      exact ih l2 (some ("[Structure] " ++ e))
    | ok pr =>
      obtain ⟨rs, group⟩ := pr
      cases hres : resolveDisambigId rs group with
      | none =>
        simp only [List.cons_append, tokenizerFilterMap, hres]
        rfl
      | some id =>
        cases hb : build rs with
        | error e =>
          simp only [List.cons_append, tokenizerFilterMap, hres, hb, List.append_eq]
          exact ih l2 (some ("[Rule] " ++ e))
        | ok rule =>
          simp only [List.cons_append, tokenizerFilterMap, hres, hb, List.append_eq]
          by_cases hc : (error.isNone && (options.ids.isEmpty || options.ids.contains id)
              && !(options.ignore_ids.contains id)) = true
          · rw [if_pos hc, if_pos hc, ih l2 error]
            cases hx : tokenizerFilterMap options build error t with
            | none => simp
            | some p =>
              cases hy : tokenizerFilterMap options build p.1 l2 with
              | none => simp [hy]
              | some q => simp [hy]
          · rw [if_neg hc, if_neg hc]
            exact ih l2 error

/-- C1: the disambiguation pipeline keeps one error slot, overwritten by
each new failure; once it is filled, even rules that build successfully
are dropped; at the end `allow_errors = true` yields `Ok` with the rules
collected so far while `allow_errors = false` fails the construction
with the retained (most recent) message. -/
theorem tokenizer_from_xml_error_behaviour :
    ∀ (build : DisambRuleStructure → Except String DisambiguationRule)
      (info : BuildInfo) (chunker : Option Nat) (options : TokenizerOptions)
      (entries : List (Except String (DisambRuleStructure × Option IndexedGroup)))
      (err : String) (acc : List DisambiguationRule),
      tokenizerFilterMap options build none entries = some (some err, acc) →
      (∀ (rs : DisambRuleStructure) (g : Option IndexedGroup) (id : String)
          (rule : DisambiguationRule),
        resolveDisambigId rs g = some id → build rs = .ok rule →
        tokenizerFilterMap options build none (entries ++ [.ok (rs, g)]) =
          some (some err, acc)) ∧
      (∀ (rs : DisambRuleStructure) (g : Option IndexedGroup) (id : String) (e : String),
        resolveDisambigId rs g = some id → build rs = .error e →
        tokenizerFilterMap options build none (entries ++ [.ok (rs, g)]) =
          some (some ("[Rule] " ++ e), acc)) ∧
      (∀ e : String,
        tokenizerFilterMap options build none (entries ++ [.error e]) =
          some (some ("[Structure] " ++ e), acc)) ∧
      (options.allow_errors = true →
        Tokenizer.from_xml build info chunker entries options =
          some (.ok { tagger := info.tagger, chunker := chunker,
                      rules := acc, options := options })) ∧
      (options.allow_errors = false →
        Tokenizer.from_xml build info chunker entries options =
          some (.error ("Error constructing Disambiguator: " ++ err))) := by
  intro build info chunker options entries err acc h
  refine ⟨?_, ?_, ?_, ?_, ?_⟩
  · intro rs g id rule hres hb
    rw [tokenizerFilterMap_append, h]
    simp [tokenizerFilterMap, hres, hb]
  · intro rs g id e hres hb
    rw [tokenizerFilterMap_append, h]
    simp [tokenizerFilterMap, hres, hb]
  · intro e
    rw [tokenizerFilterMap_append, h]
    simp [tokenizerFilterMap]
  · intro hallow
    simp [Tokenizer.from_xml, h, hallow]
  · intro hallow
    simp [Tokenizer.from_xml, h, hallow]

/-- C1 witness: with a two-entry sequence whose second rule fails to
build, a later structural failure overwrites the slot, and with
`allow_errors = false` the construction fails with the retained
message. -/
theorem tokenizer_from_xml_error_behaviour_witness :
    tokenizerFilterMap ⟨[], [], false⟩ sampleDisambBuild none
        ([.ok (⟨some "r1", 0⟩, none), .ok (⟨some "r2", 1⟩, none)] ++ [.error "late"]) =
      some (some ("[Structure] " ++ "late"), [⟨"r1", 0⟩]) ∧
    Tokenizer.from_xml sampleDisambBuild sampleBuildInfo none
        [.ok (⟨some "r1", 0⟩, none), .ok (⟨some "r2", 1⟩, none)] ⟨[], [], false⟩ =
      some (.error ("Error constructing Disambiguator: " ++ "[Rule] bad pattern")) := by
  have h := tokenizer_from_xml_error_behaviour sampleDisambBuild sampleBuildInfo none
    ⟨[], [], false⟩ [.ok (⟨some "r1", 0⟩, none), .ok (⟨some "r2", 1⟩, none)]
    "[Rule] bad pattern" [⟨"r1", 0⟩] (by decide)
  exact ⟨h.2.2.1 "late", h.2.2.2.2 rfl⟩

/-- C9: the ids/ignore_ids filter is consulted only for successfully
built rules: a rule whose construction fails fills the error slot even
when its resolved id is in `ignore_ids` (or missing from a non-empty
allow-list), and with `allow_errors = false` that failure aborts the
whole construction. -/
theorem tokenizer_filtered_rule_still_poisons :
    ∀ (build : DisambRuleStructure → Except String DisambiguationRule)
      (info : BuildInfo) (chunker : Option Nat) (options : TokenizerOptions)
      (entries : List (Except String (DisambRuleStructure × Option IndexedGroup)))
      (acc : List DisambiguationRule) (rs : DisambRuleStructure)
      (g : Option IndexedGroup) (id e : String),
      tokenizerFilterMap options build none entries = some (none, acc) →
      resolveDisambigId rs g = some id →
      (id ∈ options.ignore_ids ∨ (options.ids ≠ [] ∧ id ∉ options.ids)) →
      build rs = .error e →
      tokenizerFilterMap options build none (entries ++ [.ok (rs, g)]) =
        some (some ("[Rule] " ++ e), acc) ∧
      (options.allow_errors = false →
        Tokenizer.from_xml build info chunker (entries ++ [.ok (rs, g)]) options =
          some (.error ("Error constructing Disambiguator: " ++ ("[Rule] " ++ e)))) := by
  intro build info chunker options entries acc rs g id e h hres hfilter hb
  have h1 : tokenizerFilterMap options build none (entries ++ [.ok (rs, g)]) =
      some (some ("[Rule] " ++ e), acc) := by
    rw [tokenizerFilterMap_append, h]
    simp [tokenizerFilterMap, hres, hb]
  refine ⟨h1, ?_⟩
  intro hallow
  simp [Tokenizer.from_xml, h1, hallow]

/-- C9 witness: a rule with id `"X" ∈ ignore_ids` whose build fails still
fills the error slot and aborts (`allow_errors = false`). -/
theorem tokenizer_filtered_rule_still_poisons_witness :
    tokenizerFilterMap ⟨[], ["X"], false⟩ sampleDisambBuild none
        ([] ++ [.ok (⟨some "X", 1⟩, none)]) =
      some (some ("[Rule] " ++ "bad pattern"), []) ∧
    Tokenizer.from_xml sampleDisambBuild sampleBuildInfo none
        ([] ++ [.ok (⟨some "X", 1⟩, none)]) ⟨[], ["X"], false⟩ =
      some (.error ("Error constructing Disambiguator: " ++ ("[Rule] " ++ "bad pattern"))) := by
  have h := tokenizer_filtered_rule_still_poisons sampleDisambBuild sampleBuildInfo none
    ⟨[], ["X"], false⟩ [] [] ⟨some "X", 1⟩ none "X" "bad pattern" rfl rfl
    (Or.inl (by decide)) rfl
  exact ⟨h.1, h.2 rfl⟩

/-- C7 counterexample: a rule whose own `default` attribute is present
but not `"off"` (here `"on"`) does not inherit the group's
`default = "off"`: the code resolves it as enabled (`off = false`),
whereas the claim's chain ("off if own default equals off, else
inherited from the group's default") would resolve it as disabled. -/
theorem rules_enabled_counterexample :
    resolveOff ⟨none, none, some "on", 0⟩ (some ⟨"G", "group", 3, some "off"⟩)
        ⟨"cat", "Category", none, none⟩ = false ∧
    (false : Bool) ≠ true :=
  ⟨rfl, by decide⟩

/-- C7 (amended): the resolved id is the explicit id if present,
otherwise `"{group.id}.{group.n}"`, with a fatal abort when neither
exists (a rule without explicit id in group `{id: "G", n: 3}` resolves
to `"G.3"`); the enabled state is resolved from the rule's own `default`
attribute alone whenever that attribute is present (off iff it equals
`"off"`), and only an absent attribute falls through to the group's
`default`, then the category's, then enabled — in particular a rule with
`default` unset under a group with `default = "off"` is disabled. -/
theorem rules_id_and_enabled_amended :
    (∀ (rs : GrammarRuleStructure) (g : Option GrammarGroup) (x : String),
      rs.id = some x → resolveRuleId rs g = some x) ∧
    (∀ (rs : GrammarRuleStructure) (g : GrammarGroup), rs.id = none →
      resolveRuleId rs (some g) = some (g.id ++ "." ++ toString g.n)) ∧
    (∀ rs : GrammarRuleStructure, rs.id = none → resolveRuleId rs none = none) ∧
    resolveRuleId ⟨none, none, none, 0⟩ (some ⟨"G", "group", 3, none⟩) = some "G.3" ∧
    (∀ (rs : GrammarRuleStructure) (g : Option GrammarGroup) (c : Category),
      resolveOff rs g c =
        (match rs.default with
          | some d => d == "off"
          | none =>
            match g.bind (fun gg => gg.default) with
            | some d => d == "off"
            | none =>
              match c.default with
              | some d => d == "off"
              | none => false)) ∧
    (∀ (rs : GrammarRuleStructure) (g : GrammarGroup) (c : Category),
      rs.default = none → g.default = some "off" →
      resolveOff rs (some g) c = true) := by
  refine ⟨?_, ?_, ?_, ?_, ?_, ?_⟩
  · intro rs g x h
    simp [resolveRuleId, h]
  · intro rs g h
    simp [resolveRuleId, h, GrammarGroup.fullId]
  · intro rs h
    simp [resolveRuleId, h]
  · decide
  · intro rs g c
    cases hd : rs.default with
    | some d =>
      simp [resolveOff, hd, Option.orElse]
    | none =>
      cases g with
      | none =>
        cases hc : c.default with
        | some d => simp [resolveOff, hd, hc, Option.orElse]
        | none => simp [resolveOff, hd, hc, Option.orElse]
      | some gg =>
        cases hgd : gg.default with
        | some d => simp [resolveOff, hd, hgd, Option.orElse]
        | none =>
          cases hc : c.default with
          | some d => simp [resolveOff, hd, hgd, hc, Option.orElse]
          | none => simp [resolveOff, hd, hgd, hc, Option.orElse]
  · intro rs g c h1 h2
    simp [resolveOff, h1, h2, Option.orElse]

/-- C7 witness: the amended resolution evaluated on the claim's two
examples. -/
theorem rules_id_and_enabled_amended_witness :
    resolveRuleId ⟨none, some "n", none, 0⟩ (some ⟨"G", "group", 3, some "off"⟩) =
      some ("G" ++ "." ++ toString 3) ∧
    resolveOff ⟨none, some "n", none, 0⟩ (some ⟨"G", "group", 3, some "off"⟩)
      ⟨"cat", "Category", none, none⟩ = true :=
  ⟨rules_id_and_enabled_amended.2.1 ⟨none, some "n", none, 0⟩ ⟨"G", "group", 3, some "off"⟩ rfl,
    rules_id_and_enabled_amended.2.2.2.2.2 ⟨none, some "n", none, 0⟩
      ⟨"G", "group", 3, some "off"⟩ ⟨"cat", "Category", none, none⟩ rfl rfl⟩

/-- Helper: looking a key up in a concatenation tries the left list
first. -/
theorem assoc_lookup_append (l1 l2 : List (String × Nat)) (j : String) :
    (l1 ++ l2).lookup j = ((l1.lookup j).orElse (fun _ => l2.lookup j)) := by
  induction l1 with
  | nil => simp [List.lookup, Option.orElse]
  | cons p t ih =>
    obtain ⟨pk, pv⟩ := p
    cases hbeq : (j == pk) with
    | true => simp [List.lookup, hbeq, Option.orElse]
    | false => simp [List.lookup, hbeq, ih]

/-- Helper: a key on which `any` fails is absent. -/
theorem assoc_lookup_eq_none_of_any_eq_false {l : List (String × Nat)} {k : String}
    (h : l.any (fun p => p.1 == k) = false) : l.lookup k = none := by
  induction l with
  | nil => rfl
  | cons p t ih =>
    obtain ⟨pk, pv⟩ := p
    simp only [List.any_cons, Bool.or_eq_false_iff] at h
    have hne : pk ≠ k := by
      intro hc
      rw [hc] at h
      simp at h
    have hbeq : (k == pk) = false := beq_eq_false_iff_ne.mpr (Ne.symm hne)
    simp [List.lookup, hbeq, ih h.2]

/-- Helper: a key on which `any` succeeds is present. -/
theorem assoc_lookup_isSome_of_any {l : List (String × Nat)} {k : String}
    (h : l.any (fun p => p.1 == k) = true) : ∃ v, l.lookup k = some v := by
  induction l with
  | nil => simp at h
  | cons p t ih =>
    obtain ⟨pk, pv⟩ := p
    by_cases hk : k = pk
    · have hbeq : (k == pk) = true := beq_iff_eq.mpr hk
      exact ⟨pv, by simp [List.lookup, hbeq]⟩
    · have hbeq : (k == pk) = false := beq_eq_false_iff_ne.mpr hk
      have h2 : t.any (fun p => p.1 == k) = true := by
        simp only [List.any_cons, Bool.or_eq_true] at h
        rcases h with h | h
        · exact absurd (eq_of_beq h) (Ne.symm hk)
        · exact h
      obtain ⟨v, hv⟩ := ih h2
      exact ⟨v, by simp [List.lookup, hbeq, hv]⟩

/-- Helper: the in-place `+1` map of `bumpError` bumps exactly the first
entry carrying the bumped key, seen through `lookup`. -/
theorem assoc_lookup_map_bump (k j : String) :
    ∀ (l : List (String × Nat)),
      ((l.map (fun p => if p.1 == k then (p.1, p.2 + 1) else p)).lookup j) =
        if j = k then (l.lookup k).map (fun n => n + 1) else l.lookup j := by
  intro l
  induction l with
  | nil =>
    by_cases hjk : j = k <;> simp [List.lookup, hjk]
  | cons p t ih =>
    obtain ⟨pk, pv⟩ := p
    simp only [List.map_cons]
    by_cases hpk : pk = k
    · have hpkb : (pk == k) = true := beq_iff_eq.mpr hpk
      have hkpk : (k == pk) = true := beq_iff_eq.mpr hpk.symm
      rw [if_pos hpkb]
      by_cases hjp : j = pk
      · have hjpb : (j == pk) = true := beq_iff_eq.mpr hjp
        have hjk : j = k := hjp.trans hpk
        rw [if_pos hjk]
        simp only [List.lookup, hjpb, hkpk]
        rfl
      · have hjpb : (j == pk) = false := beq_eq_false_iff_ne.mpr hjp
        have hjk : ¬ j = k := fun hc => hjp (hc.trans hpk.symm)
        rw [if_neg hjk]
        simp only [List.lookup, hjpb]
        rw [ih, if_neg hjk]
    · have hpkb : (pk == k) = false := beq_eq_false_iff_ne.mpr hpk
      rw [if_neg (show ¬ ((pk == k) = true) by simp [hpkb])]
      by_cases hjp : j = pk
      · have hjpb : (j == pk) = true := beq_iff_eq.mpr hjp
        have hjk : ¬ j = k := fun hc => hpk (hjp.symm.trans hc)
        rw [if_neg hjk]
        simp only [List.lookup, hjpb]
      · have hjpb : (j == pk) = false := beq_eq_false_iff_ne.mpr hjp
        by_cases hjk : j = k
        · have hkp : (k == pk) = false := by rw [← hjk]; exact hjpb
          rw [if_pos hjk]
          simp only [List.lookup, hjpb, hkp]
          rw [ih, if_pos hjk]
        · rw [if_neg hjk]
          simp only [List.lookup, hjpb]
          rw [ih, if_neg hjk]

/-- Helper: `bumpError` increments the looked-up count of its key (from
a default of 0) and leaves every other key unchanged. -/
theorem assoc_lookup_bumpError (acc : List (String × Nat)) (k j : String) :
    (bumpError acc k).lookup j =
      if j = k then some (((acc.lookup k).getD 0) + 1) else acc.lookup j := by
  by_cases hany : acc.any (fun p => p.1 == k) = true
  · obtain ⟨v, hv⟩ := assoc_lookup_isSome_of_any hany
    simp only [bumpError, if_pos hany]
    rw [assoc_lookup_map_bump]
    by_cases hjk : j = k <;> simp [hjk, hv]
  · have hany2 : acc.any (fun p => p.1 == k) = false := by
      cases h : acc.any (fun p => p.1 == k)
      · rfl
      · exact absurd h hany
    have hnone := assoc_lookup_eq_none_of_any_eq_false hany2
    simp only [bumpError, if_neg hany]
    rw [assoc_lookup_append]
    by_cases hjk : j = k
    · subst hjk
      simp [hnone, List.lookup, Option.orElse]
    · have hjkb : (j == k) = false := beq_eq_false_iff_ne.mpr hjk
      simp only [if_neg hjk]
      cases acc.lookup j <;> simp [List.lookup, hjkb, Option.orElse]

/-- Helper: after folding messages into the error map, the looked-up
count of a message is its number of occurrences (offset by whatever the
initial map held). -/
theorem assoc_lookup_foldl_bumpError :
    ∀ (msgs : List String) (acc : List (String × Nat)) (j : String),
      (msgs.foldl bumpError acc).lookup j =
        if msgs.count j = 0 then acc.lookup j
        else some ((acc.lookup j).getD 0 + msgs.count j) := by
  intro msgs
  induction msgs with
  | nil => intro acc j; simp
  | cons m t ih =>
    intro acc j
    rw [List.foldl_cons, ih, assoc_lookup_bumpError]
    by_cases hjm : j = m
    · subst hjm
      have hc : List.count j (j :: t) = t.count j + 1 := by simp [List.count_cons]
      rw [hc, if_neg (show ¬ (t.count j + 1 = 0) by omega)]
      by_cases h0 : t.count j = 0
      · rw [if_pos h0, if_pos (rfl : j = j), h0]
      · rw [if_neg h0, if_pos (rfl : j = j)]
        simp only [Option.getD_some, Option.some.injEq]
        omega
    · have hmj : ¬ m = j := fun hx => hjm hx.symm
      have hc : List.count j (m :: t) = t.count j := by
        simp [List.count_cons, hmj]
      rw [if_neg hjm, hc]

/-- Helper: `bumpError` keeps the keys duplicate-free. -/
theorem bumpError_keys_nodup (acc : List (String × Nat)) (k : String)
    (h : (acc.map Prod.fst).Nodup) : ((bumpError acc k).map Prod.fst).Nodup := by
  by_cases hany : acc.any (fun p => p.1 == k) = true
  · have hkeys : (bumpError acc k).map Prod.fst = acc.map Prod.fst := by
      simp only [bumpError, if_pos hany, List.map_map]
      apply List.map_congr_left
      intro p _
      by_cases hp : p.1 = k <;> simp [hp]
    rw [hkeys]
    exact h
  · have hnotmem : k ∉ acc.map Prod.fst := by
      intro hmem
      obtain ⟨p, hp, hpk⟩ := List.mem_map.mp hmem
      apply hany
      rw [List.any_eq_true]
      exact ⟨p, hp, beq_iff_eq.mpr hpk⟩
    simp only [bumpError, if_neg hany, List.map_append]
    rw [List.nodup_append]
    refine ⟨h, List.nodup_singleton k, ?_⟩
    intro a ha hmem
    simp only [List.map_cons, List.map_nil, List.mem_singleton] at hmem
    rw [hmem] at ha
    exact hnotmem ha

/-- Helper: folding messages into the error map keeps the keys
duplicate-free. -/
theorem bumpError_foldl_keys_nodup :
    ∀ (msgs : List String) (acc : List (String × Nat)),
      (acc.map Prod.fst).Nodup → ((msgs.foldl bumpError acc).map Prod.fst).Nodup := by
  intro msgs
  induction msgs with
  | nil => intro acc h; exact h
  | cons m t ih =>
    intro acc h
    rw [List.foldl_cons]
    exact ih _ (bumpError_keys_nodup _ _ h)

/-- Helper: with duplicate-free keys, membership in an association list
is the same as a successful lookup. -/
theorem assoc_mem_iff_lookup :
    ∀ (l : List (String × Nat)), (l.map Prod.fst).Nodup →
      ∀ (k : String) (v : Nat), ((k, v) ∈ l ↔ l.lookup k = some v) := by
  intro l
  induction l with
  | nil =>
    intro _ k v
    simp [List.lookup]
  | cons p t ih =>
    intro hnd k v
    obtain ⟨pk, pv⟩ := p
    rw [List.map_cons] at hnd
    have hnd2 := List.nodup_cons.mp hnd
    by_cases hk : k = pk
    · subst hk
      have hkb : (k == k) = true := beq_iff_eq.mpr rfl
      constructor
      · intro hmem
        rcases List.mem_cons.mp hmem with heq | hmem2
        · have h2 : v = pv := by simpa using heq
          simp [List.lookup, hkb, h2]
        · exfalso
          exact hnd2.1 (List.mem_map.mpr ⟨(k, v), hmem2, rfl⟩)
      · intro hlk
        simp only [List.lookup, hkb] at hlk
        have h2 : pv = v := by simpa using hlk
        rw [← h2]
        exact List.mem_cons_self _ _
    · have hkb : (k == pk) = false := beq_eq_false_iff_ne.mpr hk
      constructor
      · intro hmem
        rcases List.mem_cons.mp hmem with heq | hmem2
        · exfalso
          apply hk
          simpa using congrArg Prod.fst heq
        · simp only [List.lookup, hkb]
          exact (ih hnd2.2 k v).mp hmem2
      · intro hlk
        simp only [List.lookup, hkb] at hlk
        exact List.mem_cons_of_mem _ ((ih hnd2.2 k v).mpr hlk)

/-- Helper: on well-formed entries the grammar loop never panics, its
rule output is exactly the filtered successful builds, and its error map
is the bump-fold of the failure messages. -/
theorem rulesFilterMap_eq (options : RulesOptions)
    (build : GrammarRuleStructure → Except String Rule) :
    ∀ (entries : List (Except String (GrammarRuleStructure × Option GrammarGroup × Option Category)))
      (errors : List (String × Nat)),
      (∀ e ∈ entries, grammarEntryWF e = true) →
      rulesFilterMap options build errors entries =
        some ((grammarFailureMsgs build entries).foldl bumpError errors,
          grammarSpecRules options build entries) := by
  intro entries
  induction entries with
  | nil => intro errors _; rfl
  | cons x t ih =>
    intro errors hwf
    have hx := hwf x (List.mem_cons_self _ _)
    have ht : ∀ e ∈ t, grammarEntryWF e = true := fun e he => hwf e (List.mem_cons_of_mem _ he)
    cases x with
    | error s =>
      simp only [rulesFilterMap]
      rw [ih _ ht]
      simp [grammarFailureMsgs, grammarSpecRules, grammarFailureMsg, grammarSpecRule,
        List.filterMap_cons]
    | ok pr =>
      obtain ⟨rs, group, category⟩ := pr
      obtain ⟨c, hc⟩ : ∃ c, category = some c := by
        cases hcat : category with
        | none => rw [hcat] at hx; simp [grammarEntryWF] at hx
        | some c => exact ⟨c, rfl⟩
      subst hc
      obtain ⟨id, hrid⟩ : ∃ i, resolveRuleId rs group = some i := by
        cases hri : rs.id with
        | some v => exact ⟨v, by simp [resolveRuleId, hri]⟩
        | none =>
          cases hg : group with
          | some g => exact ⟨g.fullId, by simp [resolveRuleId, hri, hg]⟩
          | none =>
            rw [hg] at hx
            simp [grammarEntryWF, hri] at hx
      obtain ⟨name, hrname⟩ : ∃ n, resolveRuleName rs group = some n := by
        cases hrn : rs.name with
        | some v => exact ⟨v, by simp [resolveRuleName, hrn]⟩
        | none =>
          cases hg : group with
          | some g => exact ⟨g.name, by simp [resolveRuleName, hrn, hg]⟩
          | none =>
            rw [hg] at hx
            simp [grammarEntryWF, hrn] at hx
      cases hb : build rs with
      | ok rule =>
        simp only [rulesFilterMap, hrid, hb, hrname, ih _ ht]
        by_cases hcond : (options.ids = [] ∨ id ∈ options.ids) ∧ id ∉ options.ignore_ids
        · simp [grammarFailureMsgs, grammarSpecRules, grammarFailureMsg, grammarSpecRule,
            List.filterMap_cons, hrid, hrname, hb, hcond]
        · simp [grammarFailureMsgs, grammarSpecRules, grammarFailureMsg, grammarSpecRule,
            List.filterMap_cons, hrid, hrname, hb, hcond]
      | error s =>
        simp only [rulesFilterMap, hrid, hb, hrname]
        rw [ih _ ht]
        simp [grammarFailureMsgs, grammarSpecRules, grammarFailureMsg, grammarSpecRule,
          List.filterMap_cons, hrid, hrname, hb]

/-- C8: `Rules::from_xml` never fails on well-formed entries: every
rule-build or structural-parse failure is counted under its formatted
`[Rule]`/`[Structure]` message, the reported warning payload is sorted
descending by count and holds exactly the messages that occurred (with
their multiplicities), and the returned rule set is exactly the rules
that built successfully and passed the ids/ignore_ids filter. -/
theorem rules_from_xml_never_fails_and_aggregates :
    ∀ (build : GrammarRuleStructure → Except String Rule) (options : RulesOptions)
      (entries : List (Except String (GrammarRuleStructure × Option GrammarGroup × Option Category))),
      (∀ e ∈ entries, grammarEntryWF e = true) →
      Rules.from_xml build entries options =
        some (⟨grammarSpecRules options build entries⟩,
          sortErrors ((grammarFailureMsgs build entries).foldl bumpError [])) ∧
      (sortErrors ((grammarFailureMsgs build entries).foldl bumpError [])).Sorted countGe ∧
      (∀ (msg : String) (c : Nat),
        ((msg, c) ∈ sortErrors ((grammarFailureMsgs build entries).foldl bumpError []) ↔
          ((grammarFailureMsgs build entries).count msg = c ∧ 0 < c))) := by
  intro build options entries hwf
  have hfold := rulesFilterMap_eq options build entries [] hwf
  refine ⟨?_, ?_, ?_⟩
  · simp [Rules.from_xml, hfold]
  · exact List.sorted_insertionSort countGe _
  · intro msg c
    have hperm : (sortErrors ((grammarFailureMsgs build entries).foldl bumpError [])).Perm
        ((grammarFailureMsgs build entries).foldl bumpError []) :=
      List.perm_insertionSort countGe _
    rw [hperm.mem_iff]
    have hnd : (((grammarFailureMsgs build entries).foldl bumpError []).map Prod.fst).Nodup :=
      bumpError_foldl_keys_nodup _ _ (by simp)
    rw [assoc_mem_iff_lookup _ hnd]
    rw [assoc_lookup_foldl_bumpError]
    by_cases h0 : (grammarFailureMsgs build entries).count msg = 0
    · rw [if_pos h0]
      simp only [List.lookup]
      constructor
      · intro h
        exact absurd h nofun
      · intro h
        exfalso
        omega
    · rw [if_neg h0]
      simp only [List.lookup, Option.getD_none, Nat.zero_add]
      constructor
      · intro h
        have h2 := Option.some.inj h
        exact ⟨h2, by omega⟩
      · intro h
        exact congrArg some h.1

/-- C8 witness: two identical structural failures plus one good rule:
construction succeeds, the warning holds the failure message with
count 2, and the good rule survives. -/
theorem rules_from_xml_never_fails_and_aggregates_witness :
    Rules.from_xml sampleGrammarBuild
        [.error "x", .error "x", .ok (⟨some "A", some "a", none, 0⟩, none,
          some ⟨"c", "C", none, none⟩)] ⟨[], []⟩ =
      some (⟨grammarSpecRules ⟨[], []⟩ sampleGrammarBuild
          [.error "x", .error "x", .ok (⟨some "A", some "a", none, 0⟩, none,
            some ⟨"c", "C", none, none⟩)]⟩,
        sortErrors ((grammarFailureMsgs sampleGrammarBuild
          [.error "x", .error "x", .ok (⟨some "A", some "a", none, 0⟩, none,
            some ⟨"c", "C", none, none⟩)]).foldl bumpError [])) ∧
    (("[Structure] " ++ "x", 2) ∈ sortErrors ((grammarFailureMsgs sampleGrammarBuild
        [.error "x", .error "x", .ok (⟨some "A", some "a", none, 0⟩, none,
          some ⟨"c", "C", none, none⟩)]).foldl bumpError []) ↔
      ((grammarFailureMsgs sampleGrammarBuild
        [.error "x", .error "x", .ok (⟨some "A", some "a", none, 0⟩, none,
          some ⟨"c", "C", none, none⟩)]).count ("[Structure] " ++ "x") = 2 ∧ 0 < 2)) := by
  have h := rules_from_xml_never_fails_and_aggregates sampleGrammarBuild ⟨[], []⟩
    [.error "x", .error "x", .ok (⟨some "A", some "a", none, 0⟩, none,
      some ⟨"c", "C", none, none⟩)] (by decide)
  exact ⟨h.1, h.2.2 ("[Structure] " ++ "x") 2⟩

end Nlprule
